import Mathlib

/-!
Verification of the Delta16 binary delta codec (src/delta16/d16.py and
src/delta16/util.py), via a shallow embedding of the Python source into Lean.

Byte blobs are modelled as `List Nat` (each element a byte value, < 256 when
the blob is a real byte string).  Python integers are modelled as `Int` where
they can be negative (offsets, SKP counts) and as `Nat` where they cannot.
Python `assert` statements and other crash points (IndexError on `pop` of an
empty buffer, `TypeError` from `pack16(None)`, numpy `np.stack([])`) are
modelled by returning `none` from an `Option`-valued function.
Python's `while` loops are modelled with an explicit fuel argument that is
large enough for every terminating execution; fuel exhaustion (which models
source-level non-termination) also returns `none`.
-/

namespace Delta16

/-- Opcode type: `Op = Literal['END','CPY','INS','SKP','RPL','MOV','CPR','CPM']`
from d16.py. -/
inductive Op where
  | END | CPY | INS | SKP | RPL | MOV | CPR | CPM
deriving DecidableEq, Repr

/-- Opcode prefix bits, from `opmap` in d16.py (the string `'0000_0000'` etc.
with the `n` payload bits zeroed): `opcode[k]`. -/
def opcodeOf : Op → Nat
  | .END => 0x00
  | .CPM => 0x00
  | .CPR => 0x10
  | .RPL => 0x20
  | .MOV => 0x30
  | .CPY => 0x40
  | .INS => 0x80
  | .SKP => 0xc0

/-- Payload-bit mask, `opmask[k]` in d16.py. -/
def opmaskOf : Op → Nat
  | .END => 0x00
  | .CPM => 0x0f
  | .CPR => 0x0f
  | .RPL => 0x0f
  | .MOV => 0x0f
  | .CPY => 0x3f
  | .INS => 0x3f
  | .SKP => 0x3f

/-- Flag for opcodes accepting trailing data: `opdata[k]` in d16.py. -/
def opdataOf : Op → Bool
  | .INS => true
  | .RPL => true
  | .CPR => true
  | _ => false

/-- The opcode list in the insertion order of the Python dict `opmap`
(`END` first, as the source comment requires). -/
def opList : List Op := [.END, .CPM, .CPR, .RPL, .MOV, .CPY, .INS, .SKP]

/-- `IndexMapping` from util.py: a half-open source interval
`[start, start+length)` reappearing in the destination at offset `offset`.
All three fields are Python ints (offsets can be negative, and the decoder can
construct negative lengths), hence `Int`. -/
structure IndexMapping where
  start : Int
  offset : Int
  length : Int
deriving DecidableEq, Repr, Inhabited

namespace IndexMapping

/-- `IndexMapping.map`: map a point of the source interval, else `None`. -/
def map (e : IndexMapping) (i : Int) : Option Int :=
  if e.start ≤ i ∧ i < e.start + e.length then some (i + e.offset) else none

/-- Derived property `end` (named `iend` here since `end` is a Lean keyword). -/
def iend (e : IndexMapping) : Int := e.start + e.length

/-- Derived property `map_start`. -/
def map_start (e : IndexMapping) : Int := e.start + e.offset

/-- Derived property `map_end`. -/
def map_end (e : IndexMapping) : Int := e.start + e.offset + e.length

end IndexMapping

/-- Constructor of `RelocationTable` from util.py: shift every entry by
`(addr_start, addr_offset)`.  The table is represented by its entry list. -/
def tableEntries (entries : List IndexMapping) (addrStart addrOffset : Int) :
    List IndexMapping :=
  entries.map (fun e => ⟨e.start + addrStart, e.offset + addrOffset, e.length⟩)

/-- Loop body of `RelocationTable.relocate`.  The Python source is

`a = None; for e in entries: (if a := e.map(addr): break); return a`

so the loop skips over entries whose `map` result is falsy (`None` *or* `0`),
and returns the result of the *last* evaluated `e.map(addr)` when no entry
produced a truthy value.  The accumulator argument is the current value of
`a`. -/
def relocGo (addr : Int) : List IndexMapping → Option Int → Option Int
  | [], a => a
  | e :: rest, _ =>
    match IndexMapping.map e addr with
    | some v => if v = 0 then relocGo addr rest (some v) else some v
    | none => relocGo addr rest none

/-- `RelocationTable.relocate` on a table given by its (already shifted)
entry list. -/
def relocateList (entries : List IndexMapping) (addr : Int) : Option Int :=
  relocGo addr entries none

/-- `pack16` from util.py: little-endian 16-bit encoding.  The source asserts
`0 <= n < 1 << 16`; assertion failure (and the `TypeError` raised when the
argument is `None`, modelled by the caller) is `none`. -/
def pack16 (n : Int) : Option (List Nat) :=
  if 0 ≤ n ∧ n < 65536 then some [n.toNat % 256, n.toNat / 256] else none

/-- `addr16` from util.py: read a little-endian u16 from the first two bytes.
The source asserts `len(xs) >= 2`; failure is `none`. -/
def addr16 (xs : List Nat) : Option Nat :=
  match xs with
  | x0 :: x1 :: _ => some (x0 ||| (x1 <<< 8))
  | _ => none

/-- Total variant of `addr16` used where the source's length assertion is
provably satisfied at every call site (the relocation-classification scan in
`Delta16._enc`, see `relocScan`). -/
def addr16t (xs : List Nat) : Nat :=
  xs.getD 0 0 ||| (xs.getD 1 0 <<< 8)

/-- `fletcher16` from util.py.  Note the non-standard `>= 255` threshold. -/
def fletcher16 (data : List Nat) : Nat :=
  let s := data.foldl
    (fun (p : Nat × Nat) byte =>
      let s1 := p.1 + byte
      let s1 := if s1 ≥ 255 then s1 - 255 else s1
      let s2 := p.2 + s1
      let s2 := if s2 ≥ 255 then s2 - 255 else s2
      (s1, s2))
    (0, 0)
  (s.2 <<< 8) ||| s.1

/-- Core of `Delta16._encode_op_inner` from d16.py, after the SKP count has
been wrapped to `0..0xffff` and the `n > 0` assertion has been checked (see
`encodeOpInner`).  The recursive call in the chunking branch goes through
`Delta16._encode_op` in the source; at that point the module global
`pending_copy` is always `0` and the op is never `CPY` (the branch is reached
only for `CPM`, the sole op whose prefix equals `END`'s), so it is exactly a
recursive `_encode_op_inner` call. -/
def encInnerF : Nat → Op → Nat → List Nat → Option (List Nat)
  | 0, _, _, _ => none
  | fuel + 1, op, m, data =>
    -- nd = 1 if op == 'CPR' else n
    let nd := if op = .CPR then 1 else m
    -- assert data and len(data) >= nd / assert not data
    if (if opdataOf op then data ≠ [] ∧ nd ≤ data.length else data = []) then
      let limit := opmaskOf op
      let v := opcodeOf op
      if 255 + limit < m then
        if v ≠ opcodeOf .END then
          -- bytes([v | 0]) + pack16(n) + data[:nd]
          (pack16 m).map (fun p => [v ||| 0] ++ p ++ data.take nd)
        else
          -- k = 255 + limit; bytes([v | limit, 255]) + data[:k] + recurse
          let k := 255 + limit
          (encInnerF fuel op (m - k) (data.drop k)).map
            (fun r => [v ||| limit, 255] ++ data.take k ++ r)
      else if op ≠ .END ∧ limit ≤ m then
        some ([v ||| limit, m - limit] ++ data.take nd)
      else
        some ([v ||| m] ++ data.take nd)
    else none

/-- Entry point for `encInnerF`.  Every recursive step strictly decreases `m`
(by `255 + limit ≥ 270`), so fuel `m + 1` never runs out;
`encInnerF_fuel_irrelevant` below makes this precise. -/
def encInner (op : Op) (m : Nat) (data : List Nat) : Option (List Nat) :=
  encInnerF (m + 1) op m data

/-- `Delta16._encode_op_inner` from d16.py: wrap the SKP count modulo 2^16,
check the `assert (op == 'END' and n == 0) or n > 0`, then encode. -/
def encodeOpInner (op : Op) (n : Int) (data : List Nat) : Option (List Nat) :=
  -- if op == 'SKP': n = (n + 0x10000) & 0xffff
  let n1 : Int := if op = .SKP then n % 65536 else n
  if (op = .END ∧ n1 = 0) ∨ 0 < n1 then encInner op n1.toNat data else none

/-- `Delta16._encode_op` from d16.py, with the module-level global
`pending_copy` made explicit: the first argument is the value of the global on
entry, and the returned `Nat` is its value on exit. -/
def encodeOp (pending : Nat) (op : Op) (n : Int) (data : List Nat) :
    Option (Nat × List Nat) :=
  if pending ≠ 0 then
    if n = 1 ∧ (op = .MOV ∨ op = .RPL) then
      -- merge with the pending CPY into CPM / CPR
      (encodeOpInner (if op = .MOV then .CPM else .CPR) (pending : Int) data).map
        (fun out => (0, out))
    else
      -- flush the pending CPY first
      match encodeOpInner .CPY (pending : Int) [] with
      | none => none
      | some flush =>
        if op = .CPY then some (n.toNat, flush)
        else (encodeOpInner op n data).map (fun out => (0, flush ++ out))
  else
    if op = .CPY then some (n.toNat, [])
    else (encodeOpInner op n data).map (fun out => (0, out))

/-- `Delta16._decode_op` from d16.py: pop the header byte, find the first op
in `opmap` order whose prefix matches, and read the count.  Returns the op,
the count and the remaining buffer; `none` models popping an empty buffer or
(unreachably for byte input) no matching op.  The Python test
`v & ~opmask[op] == pfx` over unbounded ints equals `v - (v & opmask[op]) == pfx`. -/
def decodeOp (data : List Nat) : Option (Op × Nat × List Nat) :=
  match data with
  | [] => none
  | v :: rest =>
    match opList.find? (fun op => v - (v &&& opmaskOf op) = opcodeOf op) with
    | none => none
    | some op =>
      let limit := opmaskOf op
      let n := v &&& limit
      if op = .END then some (op, n, rest)
      else if n = 0 then
        match rest with
        | b0 :: b1 :: r => some (op, b0 ||| (b1 <<< 8), r)
        | _ => none
      else if n = limit then
        match rest with
        | b :: r => some (op, n + b, r)
        | _ => none
      else some (op, n, rest)

/-! ### find_overlap (util.py)

The numpy pipeline is translated index-wise: `ovd a b i` is `diff[i]`
(`1` where the byte sequences differ, `0` where they agree), `ovMatched` is
`np.flatnonzero(diff == 0)`, `ovBoundaries` is
`np.flatnonzero(diff - shifted == 1)` (the start index of every mismatch run),
and `ovRcum a b i` is the right-to-left cumulative mismatch count
`diff[::-1].cumsum()[::-1][i]`, i.e. the number of mismatches at positions
`>= i`. -/

/-- Length of the compared region: `n = min(len(a), len(b))`. -/
def ovN (a b : List Nat) : Nat := min a.length b.length

/-- `diff[i]`: `1` if `a[i] != b[i]` else `0` (meaningful for `i < ovN a b`). -/
def ovd (a b : List Nat) (i : Nat) : Nat :=
  if a.getD i 0 = b.getD i 0 then 0 else 1

/-- `matched = np.flatnonzero(diff == 0)`. -/
def ovMatched (a b : List Nat) : List Nat :=
  (List.range (ovN a b)).filter (fun i => ovd a b i = 0)

/-- `boundaries = np.flatnonzero(diff - shifted == 1)` where `shifted` is
`diff` shifted right by one with a zero pad: the indices where a mismatch run
starts. -/
def ovBoundaries (a b : List Nat) : List Nat :=
  (List.range (ovN a b)).filter
    (fun i => ovd a b i = 1 ∧ (i = 0 ∨ ovd a b (i - 1) = 0))

/-- `rcumerr[i]`: number of mismatch positions `j` with `i ≤ j < n`. -/
def ovRcum (a b : List Nat) (i : Nat) : Nat :=
  (((List.range (ovN a b)).drop i).map (fun j => ovd a b j)).sum

/-- `sizes[k] = cumsizes[k] - np.pad(cumsizes[1:], (0, 1))[k]`: the length of
the `k`-th mismatch run. -/
def ovSize (a b : List Nat) (k : Nat) : Nat :=
  let bs := ovBoundaries a b
  ovRcum a b (bs.getD k 0) -
    (if k + 1 < bs.length then ovRcum a b (bs.getD (k + 1) 0) else 0)

/-- The final `stop`:
`next((boundaries[k] for k in too_long if boundaries[k] >= start), stop)`. -/
def ovStop (a b : List Nat) (maxErrorRun start stop0 : Nat) : Nat :=
  (((((List.range (ovBoundaries a b).length).filter
      (fun k => maxErrorRun < ovSize a b k)).map
      (fun k => (ovBoundaries a b).getD k 0)).filter (fun x => start ≤ x)).headD stop0)

/-- `find_overlap(a, b, max_error_run)` from util.py.  Returns `(0, 0)` when
no position matches (`len(matched) == 0`).  The source ends with
`assert a[i] == b[i] and a[j-1] == b[j-1]`; that assertion provably never
fires (the content of claim C8), so it is not modelled as a failure case. -/
def findOverlap (a b : List Nat) (maxErrorRun : Nat) : Nat × Nat :=
  match ovMatched a b with
  | [] => (0, 0)
  | s :: rest =>
    let stop0 := (s :: rest).getLast (by simp) + 1
    let stop := ovStop a b maxErrorRun s stop0
    (s, stop - s)

/-! ### find_fragments (util.py)

The numpy comparison matrix `cmp` has row `j` equal to `src[j : j+block_size]`
(for `j ∈ 0 .. len(src) - block_size`), so
`similarity[j] = (chunk == cmp[j][:len(chunk)]).sum()` is the number of
positions where `chunk` and `src[j:j+block_size]` agree.  `np.argmax` returns
the first index attaining the maximum. -/

/-- Number of positions where two sequences agree (`(x == y).sum()` after
zipping; `zip` truncates to the shorter list exactly as the numpy broadcast
compares only the first `len(chunk)` columns). -/
def countEq (xs ys : List Nat) : Nat :=
  (List.zipWith (fun x y => if x = y then (1 : Nat) else 0) xs ys).sum

/-- First index attaining the maximum, with that maximum
(`np.argmax`; for the empty list returns `(0, 0)`, unreachable here). -/
def argmaxGo (i bi bv : Nat) : List Nat → Nat × Nat
  | [] => (bi, bv)
  | x :: xs => if bv < x then argmaxGo (i + 1) i x xs else argmaxGo (i + 1) bi bv xs

/-- `np.argmax` paired with the maximum value. -/
def argmaxFirst : List Nat → Nat × Nat
  | [] => (0, 0)
  | x :: xs => argmaxGo 1 0 x xs

/-- `similarity` row scores for the chunk of `dst` at `i_dst`. -/
def simScores (src chunk : List Nat) (bs : Nat) : List Nat :=
  (List.range (src.length - bs + 1)).map (fun j => countEq chunk ((src.drop j).take bs))

/-- The inner `while True` loop of `find_fragments` that retries
`find_overlap` with a shrinking lookback.  Terminates in every execution the
source terminates on; the fuel models the (unreachable) diverging executions
as `none`. -/
def ffInner (dst src : List Nat) (iDst iSrc : Nat) (maxErr minSize : Nat) :
    Nat → Int → Option (Nat × Nat × Int)
  | 0, _ => none
  | fuel + 1, lb =>
    let p := findOverlap (dst.drop ((iDst : Int) - lb).toNat)
                         (src.drop ((iSrc : Int) - lb).toNat) maxErr
    if lb ≤ (p.1 : Int) ∨ minSize ≤ p.2 then some (p.1, p.2, lb)
    else ffInner dst src iDst iSrc maxErr minSize fuel (max 0 (lb - p.1 - p.2))

/-- The main `while i_dst < len(dst)` loop of `find_fragments`.  The
`assert not matches or match.map_start >= matches[-1].map_end` is modelled by
the `none` branch. -/
def ffLoop (dst src : List Nat) (minSize minOverlap bs : Nat) :
    Nat → Nat → List IndexMapping → Option (List IndexMapping)
  | 0, _, _ => none
  | fuel + 1, iDst, acc =>
    if dst.length ≤ iDst then some acc
    else
      let chunk := (dst.drop iDst).take bs
      let scores := simScores src chunk bs
      let am := argmaxFirst scores
      let iSrc := am.1
      if minOverlap ≤ am.2 then
        -- lookback = 0 if not matches else min(i_dst - matches[-1].map_end, i_dst, i_src)
        let lookback : Int :=
          match acc.getLast? with
          | none => 0
          | some last => min (min ((iDst : Int) - last.map_end) (iDst : Int)) (iSrc : Int)
        match ffInner dst src iDst iSrc (minSize / 4) minSize (lookback.toNat + 2) lookback with
        | none => none
        | some (start, n, lb) =>
          if minSize ≤ n then
            let m : IndexMapping := ⟨(iSrc : Int) - lb + start, (iDst : Int) - iSrc, (n : Int)⟩
            if (match acc.getLast? with
                | none => true
                | some last => decide (last.map_end ≤ m.map_start)) then
              ffLoop dst src minSize minOverlap bs fuel m.map_end.toNat (acc ++ [m])
            else none
          else ffLoop dst src minSize minOverlap bs fuel (iDst + bs) acc
      else ffLoop dst src minSize minOverlap bs fuel (iDst + bs) acc

/-- `find_fragments(dst, src, block_size)` from util.py.  `block_size = 0`
with nonempty inputs makes `np.stack([])` raise, hence `none`. -/
def findFragments (dst src : List Nat) (blockSize : Nat) : Option (List IndexMapping) :=
  if dst = [] ∨ src = [] then some []
  else
    let minSize := blockSize
    let minOverlap := max 2 (blockSize / 2)
    let bs := min blockSize src.length
    if bs = 0 then none
    else ffLoop dst src minSize minOverlap bs ((dst.length + 2) * (dst.length + 2)) 0 []

/-! ### Encoder pipeline: `Delta16._enc` and `Delta16.encode` (d16.py) -/

/-- The relocation-classification scan over the difference map `diff` in
`Delta16._enc` (the `for (i, d) in enumerate(diff)` loop).  `diff` is mutated
in place (`diff[i-1:i+1] = bytes([2,2])` etc.), which later iterations
observe, hence the state-passing recursion.  The `addr16` length assertions
hold at every call site here (`i + 1 < len(diff) ≤ len(dst_frag)`), so the
total `addr16t` is used. -/
def relocScanF (tbl : List IndexMapping) (dstFrag srcFrag : List Nat)
    (fragLen : Int) : Nat → Nat → List Nat → List Nat
  | 0, _, diff => diff
  | fuel + 1, i, diff =>
    if diff.length ≤ i then diff
    else
      let d := diff.getD i 0
      if d ≠ 1 then relocScanF tbl dstFrag srcFrag fragLen fuel (i + 1) diff
      else if 0 < i ∧ diff.getD (i - 1) 0 = 1 ∧
          some ((addr16t (dstFrag.drop (i - 1)) : Int)) =
            relocateList tbl (addr16t (srcFrag.drop (i - 1))) then
        relocScanF tbl dstFrag srcFrag fragLen fuel (i + 1) ((diff.set (i - 1) 2).set i 2)
      else if i + 1 < diff.length ∧
          some ((addr16t (dstFrag.drop i) : Int)) =
            relocateList tbl (addr16t (srcFrag.drop i)) then
        relocScanF tbl dstFrag srcFrag fragLen fuel (i + 1) ((diff.set i 2).set (i + 1) 2)
      else if fragLen ≤ (i : Int) then
        -- stop if we find a mismatched index in the tail that is not relocatable
        diff.take i
      else relocScanF tbl dstFrag srcFrag fragLen fuel (i + 1) diff

/-- Entry point for `relocScanF`.  Each step increases `i` by one while
`List.set` preserves the length, so fuel `diff.length + 1` never runs out
when starting from `i = 0`. -/
def relocScan (tbl : List IndexMapping) (dstFrag srcFrag : List Nat)
    (fragLen : Int) (diff : List Nat) : List Nat :=
  relocScanF tbl dstFrag srcFrag fragLen (diff.length + 1) 0 diff

/-- Run-length coding of the difference map: `itertools.groupby` followed by
taking each group's value and length. -/
def rle : List Nat → List (Nat × Nat)
  | [] => []
  | x :: xs =>
    match rle xs with
    | (y, k) :: rest => if x = y then (y, k + 1) :: rest else (x, 1) :: (y, k) :: rest
    | [] => [(x, 1)]

/-- Emission of the run-length groups of one fragment (`for v, g in
groupby(diff)` in `Delta16._enc`).  Returns the emitted bytes, the new
`pending_copy`, and the advanced cursors.  The `assert n & 1 == 0` for MOV
groups is the `none` branch. -/
def emitGroups (dst : List Nat) :
    List (Nat × Nat) → Nat → Nat → Nat → Option (List Nat × Nat × Nat × Nat)
  | [], pending, iSrc, iDst => some ([], pending, iSrc, iDst)
  | (v, n) :: gs, pending, iSrc, iDst =>
    (do
      let op : Op ← if v = 0 then some .CPY else if v = 1 then some .RPL
                    else if v = 2 then some .MOV else none
      let arg : Nat ← if op = .MOV then (if n % 2 = 0 then some (n / 2) else none)
                      else some n
      let r ← if op = .RPL then encodeOp pending op (arg : Int) (dst.drop iDst)
              else encodeOp pending op (arg : Int) []
      let rest ← emitGroups dst gs r.1 (iSrc + n) (iDst + n)
      some (r.2 ++ rest.1, rest.2))

/-- The body of the `while fragments:` loop in `Delta16._enc`, one fragment
per recursive step.  State: `pending_copy`, `i_src`, `i_dst`; result: emitted
bytes plus final state.  The `break` on the empty (sentinel) fragment drops
the remaining list, exactly as the source.  All `assert`s are `none`
branches. -/
def encLoop (src : List Nat) (tbl : List IndexMapping) (dst : List Nat) :
    List IndexMapping → Nat → Nat → Nat → Option (List Nat × Nat × Nat × Nat)
  | [], pending, iSrc, iDst => some ([], pending, iSrc, iDst)
  | f :: rest, pending, iSrc, iDst =>
    (do
      let nDst : Int := f.map_start - iDst
      let nSrc : Int := if f.length = 0 then 0 else f.start - iSrc
      -- assert n_dst >= 0, "fragments not sequential for target"
      if nDst < 0 then none else
      let insB ← if 0 < nDst then encodeOp pending .INS nDst (dst.drop iDst)
                 else some (pending, [])
      let iDst1 := iDst + nDst.toNat
      let skpB ← if nSrc ≠ 0 then encodeOp insB.1 .SKP nSrc [] else some (insB.1, [])
      let iSrc1 := ((iSrc : Int) + nSrc).toNat
      -- assert i_dst == fragment.map_start and (fragment.empty or i_src == fragment.start)
      if ¬((iDst1 : Int) = f.map_start ∧ (f.length = 0 ∨ (iSrc1 : Int) = f.start)) then none else
      if f.length = 0 then
        -- assert fragment.map_start == len(dst), then break
        if (f.map_start = (dst.length : Int)) then
          some (insB.2 ++ skpB.2, skpB.1, iSrc1, iDst1)
        else none
      else
        match rest with
        | [] => none   -- fragments[0] raises IndexError
        | next :: _ =>
          let tail : Int := min (next.map_start - f.map_end) ((src.length : Int) - f.iend)
          let n : Int := f.length + tail
          let dstFrag := (dst.drop f.map_start.toNat).take n.toNat
          let srcFrag := (src.drop f.start.toNat).take n.toNat
          let diff0 := List.zipWith (fun x y => if x = y then (0 : Nat) else 1) dstFrag srcFrag
          let diff := relocScan tbl dstFrag srcFrag f.length diff0
          let gr ← emitGroups dst (rle diff) skpB.1 iSrc1 iDst1
          -- assert i_dst >= fragment.map_end, "Failed to consume fragment"
          if (gr.2.2.2 : Int) < f.map_end then none else
          let tl ← encLoop src tbl dst rest gr.2.1 gr.2.2.1 gr.2.2.2
          some (insB.2 ++ skpB.2 ++ gr.1 ++ tl.1, tl.2))

/-- `Delta16._enc` from d16.py: fragment search, relocation table, fragment
loop with the sentinel fragment appended, final `assert i_dst == len(dst)`,
and the terminating `END` (which flushes any pending CPY). -/
def encBody (src : List Nat) (srcAddr : Nat) (dst : List Nat) (dstAddr : Nat)
    (blockSize : Nat) : Option (List Nat) :=
  (do
    let fragments ← findFragments dst src blockSize
    let tbl := tableEntries fragments (srcAddr : Int) ((dstAddr : Int) - (srcAddr : Int))
    let r ← encLoop src tbl dst (fragments ++ [⟨0, (dst.length : Int), 0⟩]) 0 0 0
    -- assert i_dst == len(dst)
    if r.2.2.2 ≠ dst.length then none else
    let e ← encodeOp r.2.1 .END 0 []
    some (r.1 ++ e.2))

/-- `Delta16.encode` from d16.py: header, instruction body, destination
checksum.  `dstAddr? = none` models the `dst_addr = None` default (use
`src_addr`). -/
def encodeD16 (src : List Nat) (srcAddr : Nat) (dst : List Nat)
    (dstAddr? : Option Nat) (chunkSize : Nat) : Option (List Nat) :=
  (do
    let dstAddr := dstAddr?.getD srcAddr
    let h1 ← pack16 0x0d16
    let h2 ← pack16 (srcAddr : Int)
    let h3 ← pack16 (src.length : Int)
    let h4 ← pack16 (fletcher16 src : Int)
    let h5 ← pack16 (dstAddr : Int)
    let body ← encBody src srcAddr dst dstAddr chunkSize
    let h6 ← pack16 (fletcher16 dst : Int)
    some (h1 ++ h2 ++ h3 ++ h4 ++ h5 ++ body ++ h6))

/-! ### Decoder pipeline: `Delta16._dec` and `Delta16.decode` (d16.py) -/

/-- Relocate-and-pack for the decoder's MOV/CPM output:
`pack16(relocate(addr16(xs)))`.  A failed `addr16` length assertion, a `None`
relocation (`pack16(None)` raises `TypeError`), and an out-of-range packed
value are all failures. -/
def relocPack (reloc : Int → Option Int) (xs : List Nat) : Option (List Nat) :=
  (do
    let v ← addr16 xs
    let w ← reloc (v : Int)
    pack16 w)

/-- One pass of the `while True` instruction walk inside `Delta16._dec`.
`ready = false` is the first pass: it builds the relocation-table entries and
emits nothing.  `ready = true` is the second pass: it emits destination bytes
using `reloc`.  State: remaining instruction bytes, `i_src`, `i_dst`, the
candidate `entry`, and the collected `entries`.  Returns the emitted bytes and
the final entry list.  Crashes (`_decode_op` popping an empty buffer, `addr16`
on a short slice, `pack16(None)`) are `none`; the fuel exceeds the byte count
of the buffer, and every step consumes at least one byte, so fuel exhaustion
is unreachable. -/
def decPass (src : List Nat) (reloc : Int → Option Int) (ready : Bool) :
    Nat → List Nat → Nat → Nat → Option IndexMapping → List IndexMapping →
    Option (List Nat × List IndexMapping)
  | 0, _, _, _, _, _ => none
  | fuel + 1, data, iSrc, iDst, entry, entries =>
    match decodeOp data with
    | none => none
    | some (op, n, data1) =>
      -- start or finish a relocation table entry (first pass only)
      let st : Option IndexMapping × List IndexMapping :=
        if ready then (entry, entries)
        else
          match entry with
          | some e =>
            if op = .INS ∨ op = .SKP ∨ op = .END then
              (none, entries ++ [⟨e.start, e.offset, (iSrc : Int) - e.start⟩])
            else (entry, entries)
          | none =>
            if ¬(op = .INS ∨ op = .SKP ∨ op = .END) then
              (some ⟨(iSrc : Int), (iDst : Int) - (iSrc : Int), 0⟩, entries)
            else (entry, entries)
      match op with
      | .END => some ([], st.2)
      | .CPY =>
        (decPass src reloc ready fuel data1 (iSrc + n) (iDst + n) st.1 st.2).map
          (fun r => ((if ready then (src.drop iSrc).take n else []) ++ r.1, r.2))
      | .CPR =>
        (decPass src reloc ready fuel (data1.drop 1) (iSrc + n + 1) (iDst + n + 1)
            st.1 st.2).map
          (fun r => ((if ready then (src.drop iSrc).take n ++ data1.take 1 else []) ++ r.1, r.2))
      | .CPM =>
        (do
          let out ← if ready then
              (relocPack reloc (src.drop (iSrc + n))).map ((src.drop iSrc).take n ++ ·)
            else some []
          let r ← decPass src reloc ready fuel data1 (iSrc + n + 2) (iDst + n + 2)
            st.1 st.2
          some (out ++ r.1, r.2))
      | .INS =>
        (decPass src reloc ready fuel (data1.drop n) iSrc (iDst + n) st.1 st.2).map
          (fun r => ((if ready then data1.take n else []) ++ r.1, r.2))
      | .SKP =>
        decPass src reloc ready fuel data1 ((iSrc + n) % 65536) iDst st.1 st.2
      | .RPL =>
        (decPass src reloc ready fuel (data1.drop n) (iSrc + n) (iDst + n) st.1 st.2).map
          (fun r => ((if ready then data1.take n else []) ++ r.1, r.2))
      | .MOV =>
        (do
          let out ← if ready then
              (List.range n).foldlM
                (fun acc i => (relocPack reloc (src.drop (iSrc + 2 * i))).map (acc ++ ·)) []
            else some []
          let r ← decPass src reloc ready fuel data1 (iSrc + 2 * n) (iDst + 2 * n)
            st.1 st.2
          some (out ++ r.1, r.2))

/-- `Delta16.decode` from d16.py: header checks, first pass (entry inference
with the identity relocator), relocation-table construction, second pass
(emission), destination checksum check.  The source also writes the result to
a file `tmp.dat` between the passes and the checksum check — an I/O side
effect that a pure embedding cannot carry (see claim C5). -/
def decodeD16 (src : List Nat) (srcAddr : Nat) (delta : List Nat) : Option (List Nat) :=
  (do
    let m ← addr16 (delta.take 2)
    if m ≠ 0x0d16 then none else
    let a ← addr16 ((delta.drop 2).take 2)
    if a ≠ srcAddr then none else
    let l ← addr16 ((delta.drop 4).take 2)
    if l ≠ src.length then none else
    let c ← addr16 ((delta.drop 6).take 2)
    if c ≠ fletcher16 src then none else
    let dstAddr ← addr16 ((delta.drop 8).take 2)
    let body := delta.drop 10
    let p1 ← decPass src (fun x => some x) false (body.length + 1) body 0 0 none []
    let tbl := tableEntries p1.2 (srcAddr : Int) ((dstAddr : Int) - (srcAddr : Int))
    let p2 ← decPass src (relocateList tbl) true (body.length + 1) body 0 0 none []
    let dst := p2.1
    let cs ← addr16 (delta.drop (delta.length - 2))
    if cs ≠ fletcher16 dst then none else
    some dst)

/-! ### Test vectors from the repository's test suite (tests/test_util.py,
tests/test_d16.py), used below to validate the embedding and as witnesses. -/

/-- `b"the quick brown fox"`. -/
def fox19 : List Nat :=
  [116, 104, 101, 32, 113, 117, 105, 99, 107, 32, 98, 114, 111, 119, 110, 32, 102, 111, 120]

/-- `b"THE quick x brown fox"` (first `find_overlap` test vector). -/
def ovB1 : List Nat :=
  [84, 72, 69, 32, 113, 117, 105, 99, 107, 32, 120, 32, 98, 114, 111, 119, 110, 32, 102, 111, 120]

/-- `b"the QUicK x brown fox"` (second `find_overlap` test vector). -/
def ovB2 : List Nat :=
  [116, 104, 101, 32, 81, 85, 105, 99, 75, 32, 120, 32, 98, 114, 111, 119, 110, 32, 102, 111, 120]

/-- `b"the lazy dog was jumped by the quick brown fox"` (`find_fragments`
test destination). -/
def frDst : List Nat :=
  [116, 104, 101, 32, 108, 97, 122, 121, 32, 100, 111, 103, 32, 119, 97, 115, 32, 106, 117, 109,
   112, 101, 100, 32, 98, 121, 32, 116, 104, 101, 32, 113, 117, 105, 99, 107, 32, 98, 114, 111,
   119, 110, 32, 102, 111, 120]

/-- `b"the quick brown fox jumps over the lazy dog"` (`find_fragments` test
source). -/
def frSrc : List Nat :=
  [116, 104, 101, 32, 113, 117, 105, 99, 107, 32, 98, 114, 111, 119, 110, 32, 102, 111, 120, 32,
   106, 117, 109, 112, 115, 32, 111, 118, 101, 114, 32, 116, 104, 101, 32, 108, 97, 122, 121, 32,
   100, 111, 103]

set_option maxRecDepth 100000 in
/-- Validation against tests/test_util.py: the two published `find_overlap`
examples, the `find_fragments` example, and the `RelocationTable` example
(whose last expected value is `1500+16384+2048-512 = 19420`). -/
theorem validation_util :
    findOverlap fox19 ovB1 0 = (3, 7) ∧
    findOverlap fox19 ovB2 3 = (0, 10) ∧
    findFragments frDst frSrc 8 = some [⟨31, -31, 12⟩, ⟨0, 27, 19⟩] ∧
    relocateList (tableEntries [⟨0, 0, 1024⟩, ⟨512, 1536, 1024⟩] 8192 8192) 0 = none ∧
    relocateList (tableEntries [⟨0, 0, 1024⟩, ⟨512, 1536, 1024⟩] 8192 8192) (512 + 8192) =
      some (512 + 16384) ∧
    relocateList (tableEntries [⟨0, 0, 1024⟩, ⟨512, 1536, 1024⟩] 8192 8192) (1500 + 8192) =
      some (1500 + 16384 + 2048 - 512) := by
  refine ⟨by decide, by decide, by decide, by decide, by decide, by decide⟩

set_option maxRecDepth 1000000 in
set_option maxHeartbeats 1000000 in
/-- Validation against tests/test_d16.py: `test_encode`, `test_decode`,
`test_nil` and `test_identity` (the delta of `encode(x, x)` for the 43-byte
sentence with `chunk_size=8` is 14 bytes with body `CPY|43, END`). -/
theorem validation_d16 :
    encodeOpInner .END 0 [] = some [0] ∧
    encodeOpInner .CPY 3 [] = some [opcodeOf .CPY ||| 3] ∧
    encodeOpInner .CPY 255 [] = some [opcodeOf .CPY ||| opmaskOf .CPY, 255 - opmaskOf .CPY] ∧
    encodeOpInner .CPY 1024 [] = some [opcodeOf .CPY, 0, 4] ∧
    encodeOpInner .MOV 1 [] = some [opcodeOf .MOV ||| 1] ∧
    encodeOpInner .SKP (-1) [] = some [opcodeOf .SKP, 255, 255] ∧
    encodeOpInner .INS 3 [1, 2, 3] = some [opcodeOf .INS ||| 3, 1, 2, 3] ∧
    decodeOp [0] = some (.END, 0, []) ∧
    decodeOp [opcodeOf .MOV ||| 1] = some (.MOV, 1, []) ∧
    decodeOp [opcodeOf .SKP, 255, 255] = some (.SKP, 65535, []) ∧
    decodeOp [opcodeOf .INS ||| 3, 1, 2, 3] = some (.INS, 3, [1, 2, 3]) ∧
    (encodeD16 [] 0 [] none 64).map List.length = some 13 ∧
    (encodeD16 frSrc 0 frSrc none 8).map List.length = some 14 := by
  refine ⟨by decide, by decide, by decide, by decide, by decide, by decide, by decide,
    by decide, by decide, by decide, by decide, by decide, by decide⟩

/-! ### Helper lemmas -/

/-- Recombining a little-endian byte pair: `a ||| (b <<< 8) = a + 256 * b`
for a byte `a`. -/
theorem lor_shift8 (a b : Nat) (ha : a < 256) : a ||| (b <<< 8) = a + 256 * b := by
  have h1 : b <<< 8 = 2 ^ 8 * b := by rw [Nat.shiftLeft_eq]; ring
  rw [h1, Nat.lor_comm, ← Nat.mul_add_lt_is_or (by omega : a < 2 ^ 8) b]
  omega

/-- `encInnerF` does not depend on the fuel as long as the fuel exceeds the
count (each recursive step decreases the count by `255 + limit ≥ 255`). -/
theorem encInnerF_congr (f1 : Nat) : ∀ (f2 m : Nat) (op : Op) (data : List Nat),
    m < f1 → m < f2 → encInnerF f1 op m data = encInnerF f2 op m data := by
  induction f1 with
  | zero => intro f2 m op data h1 _; omega
  | succ f ih =>
    intro f2 m op data h1 h2
    match f2, h2 with
    | f2' + 1, _ =>
      simp only [encInnerF]
      split_ifs with hA hB hC <;>
        first
        | rfl
        | rw [ih f2' (m - (255 + opmaskOf op)) op (data.drop (255 + opmaskOf op)) (by omega) (by omega)]

/-- The CPM chunking branch of `_encode_op_inner`: for `n > 270` the encoder
emits a maximal two-byte-header chunk `CPM 270` and recurses on the remainder
(CPM has no trailing data). -/
theorem encInner_cpm_chunk (m : Nat) (h : 270 < m) :
    encInner .CPM m [] = (encInner .CPM (m - 270) []).map (fun r => [15, 255] ++ r) := by
  show encInnerF (m + 1) .CPM m [] = _
  rw [encInnerF]
  simp only [opdataOf, opmaskOf, opcodeOf, List.take_nil, List.drop_nil]
  rw [if_pos (by simp), if_pos (by omega : 255 + 15 < m), if_neg (by simp)]
  rw [encInner, encInnerF_congr m (m - (255 + 15) + 1) (m - (255 + 15)) .CPM []
    (by omega) (by omega)]
  simp

/-! ### Claim C9: Fletcher-16 -/

/-- C9.  `fletcher16` uses the `>= 255` threshold (so a single `0xff` byte
checksums to `0`, which the classical `>= 256` threshold would map to
`0x01ff`), and the two published values hold:
`fletcher16([0x01, 0x02]) = 0x0403` and `fletcher16(b"abcdefgh") = 0x0627`. -/
theorem C9_fletcher16 :
    fletcher16 [0x01, 0x02] = 0x0403 ∧
    fletcher16 [97, 98, 99, 100, 101, 102, 103, 104] = 0x0627 ∧
    fletcher16 [255] = 0 := by
  refine ⟨by decide, by decide, by decide⟩

/-! ### Claim C5: purity at the boundary -/

/-- C5.  The module-level global `pending_copy` influences the result of
`Delta16._encode_op`: encoding `END` with the global holding `19` produces
different bytes (a flushed `CPY 19` first) than with the global holding `0`.
The other side of the claim — `decode` writing the file `tmp.dat` — is an I/O
effect outside the pure embedding (see the comment on `decodeD16`). -/
theorem C5_pending_copy_influences_encode_op :
    encodeOp 19 .END 0 [] ≠ encodeOp 0 .END 0 [] := by decide

/-! ### Claim C3: relocation lookup -/

/-- C3 counterexample.  With the table of the claim, `relocate(9692)` returns
`19420` (`= 9692 + 1536 + 8192`), not the claimed `19164`.  Moreover the
"first entry" rule fails in general: in the table `[(0,0,1), (0,5,1)]` the
first entry contains `0` and maps it to `0`, but Python's truthiness test
(`if a := e.map(addr)`) skips the falsy value `0`, so `relocate` returns the
second entry's value `5`. -/
theorem C3_counterexample :
    relocateList (tableEntries [⟨0, 0, 1024⟩, ⟨512, 1536, 1024⟩] 8192 8192) 9692 =
      some 19420 ∧
    (19420 : Int) ≠ 19164 ∧
    IndexMapping.map ⟨0, 0, 1⟩ 0 = some 0 ∧
    relocateList [⟨0, 0, 1⟩, ⟨0, 5, 1⟩] 0 = some 5 := by
  refine ⟨by decide, by decide, by decide, by decide⟩

/-- C3 amended.  `relocate` scans the entries in order and returns the first
*truthy* (nonzero) `e.map(a)`; an entry that maps `a` to `0` is skipped.  When
no entry contains `a` at all the result is the failure sentinel `none`
(distinct from every 16-bit value).  For the example table (entries
`[(0,0,1024), (512,1536,1024)]`, `addr_start = 8192`, `addr_offset = 8192`):
`relocate(0)` fails, `relocate(8704) = 16896`, and `relocate(9692) = 19420`
(not 19164 as the claim stated). -/
theorem C3_amended :
    (∀ (es : List IndexMapping) (a : Int),
        (∀ e ∈ es, IndexMapping.map e a = none) → relocateList es a = none) ∧
    (∀ (pre post : List IndexMapping) (e : IndexMapping) (a v : Int),
        (∀ e' ∈ pre, IndexMapping.map e' a = none) →
        IndexMapping.map e a = some v → v ≠ 0 →
        relocateList (pre ++ e :: post) a = some v) ∧
    relocateList (tableEntries [⟨0, 0, 1024⟩, ⟨512, 1536, 1024⟩] 8192 8192) 0 = none ∧
    relocateList (tableEntries [⟨0, 0, 1024⟩, ⟨512, 1536, 1024⟩] 8192 8192) 8704 =
      some 16896 ∧
    relocateList (tableEntries [⟨0, 0, 1024⟩, ⟨512, 1536, 1024⟩] 8192 8192) 9692 =
      some 19420 := by
  refine ⟨?_, ?_, by decide, by decide, by decide⟩
  · intro es a h
    induction es with
    | nil => rfl
    | cons e rest ih =>
      show relocGo a (e :: rest) none = none
      have he := h e (by simp)
      simp only [relocGo, he]
      exact ih (fun e' he' => h e' (by simp [he']))
  · intro pre post e a v hpre he hv
    induction pre with
    | nil =>
      show relocGo a (e :: post) none = some v
      simp only [relocGo, he]
      exact if_neg hv
    | cons p pre' ih =>
      show relocGo a (p :: (pre' ++ e :: post)) none = some v
      have hp := hpre p (by simp)
      simp only [relocGo, hp]
      exact ih (fun e' he' => hpre e' (by simp [he']))

/-- Witness for `C3_amended`: the general clauses applied at concrete
inputs. -/
theorem C3_amended_witness :
    relocateList [(⟨10, 3, 5⟩ : IndexMapping)] 0 = none ∧
    relocateList ([⟨10, 3, 5⟩] ++ (⟨0, 3, 5⟩ : IndexMapping) :: []) 4 = some 7 := by
  constructor
  · exact C3_amended.1 [⟨10, 3, 5⟩] 0 (by decide)
  · exact C3_amended.2.1 [⟨10, 3, 5⟩] [] ⟨0, 3, 5⟩ 4 7 (by decide) (by decide) (by decide)

/-! ### Claim C4: variable-length count encoding -/

/-- C4 counterexample.  For the 4-bit op `MOV` with `n = 1024 > limit + 255`,
the encoder emits the three-byte form `prefix|0, u16-le n` (header byte
`0x30 = 48`), not the maximum chunk `prefix|limit = 0x3f` plus recursion that
the claim prescribes for all of CPM/CPR/RPL/MOV: only CPM's `prefix|0`
collides with `END` (the source even asserts `opcode['CPR'] & ~opmask['CPR']
!= opcode['END'] & ~opmask['END']`). -/
theorem C4_counterexample :
    encodeOpInner .MOV 1024 [] = some [48, 0, 4] ∧
    (48 : Nat) ≠ opcodeOf .MOV ||| opmaskOf .MOV := by
  refine ⟨by decide, by decide⟩

/-- The payload-data assertion of `_encode_op_inner`, as a proposition on the
argument: `assert data and len(data) >= nd` for data ops, `assert not data`
otherwise. -/
def dataOk (op : Op) (n : Nat) (data : List Nat) : Prop :=
  if opdataOf op then data ≠ [] ∧ (if op = .CPR then 1 else n) ≤ data.length
  else data = []

instance (op : Op) (n : Nat) (data : List Nat) : Decidable (dataOk op n data) := by
  unfold dataOk; infer_instance

/-- For a count in `1 ≤ n ≤ 65535`, `_encode_op_inner` reduces to `encInner`
(the SKP wrap is the identity on that range and the positivity assertion
holds). -/
theorem encodeOpInner_natCast (op : Op) (n : Nat) (data : List Nat)
    (hn : 1 ≤ n) (hn2 : n ≤ 65535) :
    encodeOpInner op (n : Int) data = encInner op n data := by
  have hwrap : (if op = .SKP then (n : Int) % 65536 else (n : Int)) = (n : Int) := by
    split
    · apply Int.emod_eq_of_lt <;> omega
    · rfl
  simp only [encodeOpInner, hwrap]
  rw [if_pos (Or.inr (by exact_mod_cast hn))]
  simp

/-- Single-byte count case of `_encode_op_inner`: `n < limit` emits
`prefix | n` followed by the payload. -/
theorem encInner_small (op : Op) (n : Nat) (data : List Nat) (hop : op ≠ .END)
    (hn : 1 ≤ n) (hlt : n < opmaskOf op) (hdata : dataOk op n data) :
    encInner op n data =
      some ([opcodeOf op ||| n] ++ data.take (if op = .CPR then 1 else n)) := by
  rcases op
  case END => exact absurd rfl hop
  all_goals
    simp only [opmaskOf] at hlt
  all_goals
    simp only [dataOk, opdataOf, Bool.false_eq_true, if_false, if_true, ite_false,
      ite_true] at hdata
  all_goals
    show encInnerF (n + 1) _ n data = _
    rw [encInnerF]
    simp only [opdataOf, opmaskOf, opcodeOf, Bool.false_eq_true, if_false, if_true,
      ite_false, ite_true]
    rw [if_pos (by simpa using hdata), if_neg (by omega),
        if_neg (by rintro ⟨-, hc⟩; omega)]

/-- Two-byte count case of `_encode_op_inner`: `limit ≤ n ≤ limit + 255`
emits `prefix | limit, n - limit` followed by the payload. -/
theorem encInner_mid (op : Op) (n : Nat) (data : List Nat) (hop : op ≠ .END)
    (hge : opmaskOf op ≤ n) (hle : n ≤ opmaskOf op + 255) (hdata : dataOk op n data) :
    encInner op n data =
      some ([opcodeOf op ||| opmaskOf op, n - opmaskOf op] ++
        data.take (if op = .CPR then 1 else n)) := by
  rcases op
  case END => exact absurd rfl hop
  all_goals
    simp only [opmaskOf] at hge hle
  all_goals
    simp only [dataOk, opdataOf, Bool.false_eq_true, if_false, if_true, ite_false,
      ite_true] at hdata
  all_goals
    show encInnerF (n + 1) _ n data = _
    rw [encInnerF]
    simp only [opdataOf, opmaskOf, opcodeOf, Bool.false_eq_true, if_false, if_true,
      ite_false, ite_true]
    rw [if_pos (by simpa using hdata), if_neg (by omega),
        if_pos (by exact ⟨by decide, by omega⟩)]

/-- Three-byte count case of `_encode_op_inner`: `n > limit + 255` emits
`prefix | 0` and the u16-le count, for every op whose prefix differs from
`END`'s (all ops except CPM and END itself). -/
theorem encInner_u16 (op : Op) (n : Nat) (data : List Nat) (hop : op ≠ .END)
    (hcpm : op ≠ .CPM) (hgt : opmaskOf op + 255 < n) (hn2 : n ≤ 65535)
    (hdata : dataOk op n data) :
    encInner op n data =
      some ([opcodeOf op, n % 256, n / 256] ++
        data.take (if op = .CPR then 1 else n)) := by
  rcases op
  case END => exact absurd rfl hop
  case CPM => exact absurd rfl hcpm
  all_goals
    simp only [opmaskOf] at hgt
  all_goals
    simp only [dataOk, opdataOf, Bool.false_eq_true, if_false, if_true, ite_false,
      ite_true] at hdata
  all_goals
    show encInnerF (n + 1) _ n data = _
    rw [encInnerF]
    simp only [opdataOf, opmaskOf, opcodeOf, Bool.false_eq_true, if_false, if_true,
      ite_false, ite_true]
    rw [if_pos (by simpa using hdata), if_pos (by omega), if_pos (by decide)]
    rw [pack16, if_pos (⟨by omega, by omega⟩ : 0 ≤ (n : Int) ∧ (n : Int) < 65536)]
    simp [Int.toNat_natCast]

/-- C4 amended.  The count encoding scheme holds as claimed for the single-
and two-byte forms of every op, and for the three-byte form of every op whose
`prefix|0` does not collide with `END` — that is CPY, INS, SKP, and also the
4-bit ops CPR, RPL, MOV (contrary to the claim, their prefixes `0x10/0x20/0x30`
do not collide with `END`).  Only CPM (prefix `0x00`) takes the exceptional
path: a maximum chunk `CPM 270` (two bytes `0x0f, 0xff`) followed by the
encoding of the remainder. -/
theorem C4_amended (op : Op) (n : Nat) (data : List Nat)
    (hop : op ≠ .END) (hn : 1 ≤ n) (hn2 : n ≤ 65535) (hdata : dataOk op n data) :
    (n < opmaskOf op →
      encodeOpInner op (n : Int) data =
        some ([opcodeOf op ||| n] ++ data.take (if op = .CPR then 1 else n))) ∧
    (opmaskOf op ≤ n → n ≤ opmaskOf op + 255 →
      encodeOpInner op (n : Int) data =
        some ([opcodeOf op ||| opmaskOf op, n - opmaskOf op] ++
          data.take (if op = .CPR then 1 else n))) ∧
    (opmaskOf op + 255 < n → op ≠ .CPM →
      encodeOpInner op (n : Int) data =
        some ([opcodeOf op, n % 256, n / 256] ++
          data.take (if op = .CPR then 1 else n))) ∧
    (opmaskOf op + 255 < n → op = .CPM →
      encodeOpInner op (n : Int) data =
        (encInner .CPM (n - 270) []).map (fun r => [15, 255] ++ r)) := by
  rw [encodeOpInner_natCast op n data hn hn2]
  refine ⟨fun h1 => encInner_small op n data hop hn h1 hdata,
          fun h1 h2 => encInner_mid op n data hop h1 h2 hdata,
          fun h1 h2 => encInner_u16 op n data hop h2 h1 hn2 hdata,
          fun h1 h2 => ?_⟩
  subst h2
  have hd : data = [] := by simpa [dataOk, opdataOf] using hdata
  subst hd
  simp only [opmaskOf] at h1
  exact encInner_cpm_chunk n (by omega)

/-- Witness for `C4_amended`: the three count forms at concrete inputs
(`INS 3`, `CPY 255`, `SKP 1024`) and the CPM chunking at `CPM 300`. -/
theorem C4_amended_witness :
    encodeOpInner .INS (3 : Int) [1, 2, 3] = some [opcodeOf .INS ||| 3, 1, 2, 3] ∧
    encodeOpInner .CPY (255 : Int) [] = some [opcodeOf .CPY ||| opmaskOf .CPY, 192] ∧
    encodeOpInner .SKP (1024 : Int) [] = some [opcodeOf .SKP, 0, 4] ∧
    encodeOpInner .CPM (300 : Int) [] =
      (encInner .CPM 30 []).map (fun r => [15, 255] ++ r) := by
  refine ⟨?_, ?_, ?_, ?_⟩
  · have h := (C4_amended .INS 3 [1, 2, 3] (by decide) (by decide) (by decide)
      (by constructor <;> decide)).1 (by decide)
    simpa using h
  · have h := (C4_amended .CPY 255 [] (by decide) (by decide) (by decide)
      (by decide)).2.1 (by decide) (by decide)
    simpa using h
  · have h := (C4_amended .SKP 1024 [] (by decide) (by decide) (by decide)
      (by decide)).2.2.1 (by decide) (by decide)
    simpa using h
  · have h := (C4_amended .CPM 300 [] (by decide) (by decide) (by decide)
      (by decide)).2.2.2 (by decide) (by decide)
    simpa using h

/-! ### Claim C10: opcode codec round-trip -/

/-- Header-byte analysis for the 6-bit ops: for every payload value `m < 64`,
the prefix search of `_decode_op` recovers the op and the mask recovers
`m`. -/
theorem findByte6 : ∀ m, m < 64 →
    (opList.find? (fun o => (64 ||| m) - ((64 ||| m) &&& opmaskOf o) = opcodeOf o) =
        some .CPY ∧ (64 ||| m) &&& 63 = m) ∧
    (opList.find? (fun o => (128 ||| m) - ((128 ||| m) &&& opmaskOf o) = opcodeOf o) =
        some .INS ∧ (128 ||| m) &&& 63 = m) ∧
    (opList.find? (fun o => (192 ||| m) - ((192 ||| m) &&& opmaskOf o) = opcodeOf o) =
        some .SKP ∧ (192 ||| m) &&& 63 = m) := by decide

/-- Header-byte analysis for the 4-bit ops: for every payload value `m < 16`
(nonzero in the CPM case, whose zero byte is `END`), the prefix search of
`_decode_op` recovers the op and the mask recovers `m`. -/
theorem findByte4 : ∀ m, m < 16 →
    (opList.find? (fun o => (16 ||| m) - ((16 ||| m) &&& opmaskOf o) = opcodeOf o) =
        some .CPR ∧ (16 ||| m) &&& 15 = m) ∧
    (opList.find? (fun o => (32 ||| m) - ((32 ||| m) &&& opmaskOf o) = opcodeOf o) =
        some .RPL ∧ (32 ||| m) &&& 15 = m) ∧
    (opList.find? (fun o => (48 ||| m) - ((48 ||| m) &&& opmaskOf o) = opcodeOf o) =
        some .MOV ∧ (48 ||| m) &&& 15 = m) ∧
    (1 ≤ m →
      opList.find? (fun o => (0 ||| m) - ((0 ||| m) &&& opmaskOf o) = opcodeOf o) =
        some .CPM ∧ (0 ||| m) &&& 15 = m) := by decide

/-- Decoding a single-byte-count instruction header. -/
theorem decodeOp_small (op : Op) (n : Nat) (rest : List Nat) (hop : op ≠ .END)
    (h1 : 1 ≤ n) (h2 : n < opmaskOf op) :
    decodeOp ((opcodeOf op ||| n) :: rest) = some (op, n, rest) := by
  rcases op
  case END => exact absurd rfl hop
  all_goals simp only [opcodeOf, opmaskOf] at h2 ⊢
  case CPY =>
    have hf := (findByte6 n (by omega)).1
    simp only [decodeOp]
    rw [hf.1]
    simp only [opmaskOf, hf.2]
    rw [if_neg (by decide), if_neg (by omega), if_neg (by omega)]
  case INS =>
    have hf := (findByte6 n (by omega)).2.1
    simp only [decodeOp]
    rw [hf.1]
    simp only [opmaskOf, hf.2]
    rw [if_neg (by decide), if_neg (by omega), if_neg (by omega)]
  case SKP =>
    have hf := (findByte6 n (by omega)).2.2
    simp only [decodeOp]
    rw [hf.1]
    simp only [opmaskOf, hf.2]
    rw [if_neg (by decide), if_neg (by omega), if_neg (by omega)]
  case CPR =>
    have hf := (findByte4 n (by omega)).1
    simp only [decodeOp]
    rw [hf.1]
    simp only [opmaskOf, hf.2]
    rw [if_neg (by decide), if_neg (by omega), if_neg (by omega)]
  case RPL =>
    have hf := (findByte4 n (by omega)).2.1
    simp only [decodeOp]
    rw [hf.1]
    simp only [opmaskOf, hf.2]
    rw [if_neg (by decide), if_neg (by omega), if_neg (by omega)]
  case MOV =>
    have hf := (findByte4 n (by omega)).2.2.1
    simp only [decodeOp]
    rw [hf.1]
    simp only [opmaskOf, hf.2]
    rw [if_neg (by decide), if_neg (by omega), if_neg (by omega)]
  case CPM =>
    have hf := (findByte4 n (by omega)).2.2.2 h1
    simp only [decodeOp]
    rw [hf.1]
    simp only [opmaskOf, hf.2]
    rw [if_neg (by decide), if_neg (by omega), if_neg (by omega)]

/-- Decoding a two-byte-count instruction header (`prefix|limit` then the
extra byte). -/
theorem decodeOp_mid (op : Op) (b : Nat) (rest : List Nat) (hop : op ≠ .END) :
    decodeOp ((opcodeOf op ||| opmaskOf op) :: b :: rest) =
      some (op, opmaskOf op + b, rest) := by
  rcases op
  case END => exact absurd rfl hop
  all_goals
    simp only [opcodeOf, opmaskOf]
    rfl

/-- Decoding a three-byte-count instruction header (`prefix|0` then u16-le),
for every op other than END and CPM. -/
theorem decodeOp_u16 (op : Op) (n : Nat) (rest : List Nat) (hop : op ≠ .END)
    (hcpm : op ≠ .CPM) :
    decodeOp (opcodeOf op :: (n % 256) :: (n / 256) :: rest) = some (op, n, rest) := by
  have hre : (n % 256) ||| ((n / 256) <<< 8) = n := by
    rw [lor_shift8 _ _ (Nat.mod_lt _ (by omega))]
    omega
  rcases op
  case END => exact absurd rfl hop
  case CPM => exact absurd rfl hcpm
  case CPY =>
    have h0 : decodeOp (64 :: (n % 256) :: (n / 256) :: rest) =
        some (.CPY, (n % 256) ||| ((n / 256) <<< 8), rest) := rfl
    simp only [opcodeOf, h0, hre]
  case INS =>
    have h0 : decodeOp (128 :: (n % 256) :: (n / 256) :: rest) =
        some (.INS, (n % 256) ||| ((n / 256) <<< 8), rest) := rfl
    simp only [opcodeOf, h0, hre]
  case SKP =>
    have h0 : decodeOp (192 :: (n % 256) :: (n / 256) :: rest) =
        some (.SKP, (n % 256) ||| ((n / 256) <<< 8), rest) := rfl
    simp only [opcodeOf, h0, hre]
  case CPR =>
    have h0 : decodeOp (16 :: (n % 256) :: (n / 256) :: rest) =
        some (.CPR, (n % 256) ||| ((n / 256) <<< 8), rest) := rfl
    simp only [opcodeOf, h0, hre]
  case RPL =>
    have h0 : decodeOp (32 :: (n % 256) :: (n / 256) :: rest) =
        some (.RPL, (n % 256) ||| ((n / 256) <<< 8), rest) := rfl
    simp only [opcodeOf, h0, hre]
  case MOV =>
    have h0 : decodeOp (48 :: (n % 256) :: (n / 256) :: rest) =
        some (.MOV, (n % 256) ||| ((n / 256) <<< 8), rest) := rfl
    simp only [opcodeOf, h0, hre]

/-- C10.  For every op other than END and every count in the
single-instruction encodable range (`1..65535`, except `1..270` for CPM),
decoding the encoded instruction returns exactly the op and count and
consumes only the opcode and count bytes, leaving the payload bytes
(`data[:nd]`, `nd = 1` for CPR, `n` otherwise) in the buffer. -/
theorem C10_opcode_roundtrip (op : Op) (n : Nat) (data : List Nat)
    (hop : op ≠ .END) (hn : 1 ≤ n) (hn2 : n ≤ 65535)
    (hcpm : op = .CPM → n ≤ 270) (hdata : dataOk op n data) :
    ∃ out, encodeOpInner op (n : Int) data = some out ∧
      decodeOp out = some (op, n, data.take (if op = .CPR then 1 else n)) := by
  rw [encodeOpInner_natCast op n data hn hn2]
  by_cases h1 : n < opmaskOf op
  · refine ⟨_, encInner_small op n data hop hn h1 hdata, ?_⟩
    simpa using decodeOp_small op n (data.take (if op = .CPR then 1 else n)) hop hn h1
  · by_cases h2 : n ≤ opmaskOf op + 255
    · refine ⟨_, encInner_mid op n data hop (by omega) h2 hdata, ?_⟩
      have hd := decodeOp_mid op (n - opmaskOf op) (data.take (if op = .CPR then 1 else n)) hop
      have : opmaskOf op + (n - opmaskOf op) = n := by omega
      rw [this] at hd
      simpa using hd
    · rcases eq_or_ne op .CPM with hC | hC
      · exfalso
        have := hcpm hC
        subst hC
        simp only [opmaskOf] at h2
        omega
      · refine ⟨_, encInner_u16 op n data hop hC (by omega) hn2 hdata, ?_⟩
        simpa using decodeOp_u16 op n (data.take (if op = .CPR then 1 else n)) hop hC

/-- Witness for `C10_opcode_roundtrip`: the round-trip at `INS 3` with
payload `[1, 2, 3]`. -/
theorem C10_witness :
    ∃ out, encodeOpInner .INS (3 : Int) [1, 2, 3] = some out ∧
      decodeOp out = some (.INS, 3, [1, 2, 3].take (if Op.INS = Op.CPR then 1 else 3)) :=
  C10_opcode_roundtrip .INS 3 [1, 2, 3] (by decide) (by decide) (by decide)
    (by decide) (by decide)

/-! ### Claim C6: END as a terminator -/

/-- C6 counterexample.  A delta for the empty source whose instruction body is
`END` followed by a junk byte `42` (the trailing `[0, 0]` is the destination
checksum) decodes *successfully* to the empty destination: `decode` never
checks that the instruction buffer is empty when `END` is reached. -/
theorem C6_counterexample :
    decodeD16 [] 0 [22, 13, 0, 0, 0, 0, 0, 0, 0, 0, 0, 42, 0, 0] = some [] := by decide

/-- Dropping everything but the last two elements of a list. -/
theorem drop_last_two (l : List Nat) (a b : Nat) :
    (l ++ [a, b]).drop ((l ++ [a, b]).length - 2) = [a, b] := by
  have h : (l ++ [a, b]).length - 2 = l.length := by simp
  rw [h, List.drop_left]

/-- C6 amended.  `decode` treats `END` as a terminator for both passes but
performs no emptiness check on the remaining instruction buffer: for the
empty source, a delta whose body is `END` followed by *any* junk byte string
still decodes successfully (the final two bytes are the destination checksum,
which is unaffected by the junk). -/
theorem C6_amended (junk : List Nat) :
    decodeD16 [] 0 (([22, 13, 0, 0, 0, 0, 0, 0, 0, 0, 0] ++ junk) ++ [0, 0]) = some [] := by
  unfold decodeD16
  rw [drop_last_two]
  rfl

/-! ### Claim C7: fragment monotonicity -/

/-- Appending an element that clears the source's
`match.map_start >= matches[-1].map_end` assertion preserves the
non-overlapping chain. -/
theorem chain_append_last (l : List IndexMapping) (m : IndexMapping)
    (hc : List.Chain' (fun x y => x.map_end ≤ y.map_start) l)
    (hg : (match l.getLast? with
           | none => true
           | some last => decide (last.map_end ≤ m.map_start)) = true) :
    List.Chain' (fun x y => x.map_end ≤ y.map_start) (l ++ [m]) := by
  rw [List.chain'_append]
  refine ⟨hc, List.chain'_singleton m, ?_⟩
  intro x hx y hy
  simp only [List.head?_cons, Option.mem_def, Option.some.injEq] at hy
  subst hy
  rcases h : l.getLast? with _ | last
  · rw [h] at hx; exact absurd hx (by simp)
  · rw [h] at hx
    simp only [Option.mem_def, Option.some.injEq] at hx
    subst hx
    rw [h] at hg
    exact of_decide_eq_true hg

/-- Every entry list returned by the `find_fragments` main loop extends its
accumulator only through the checked append, so the chain property is an
invariant. -/
theorem ffLoop_chain (dst src : List Nat) (minSize minOverlap bs : Nat) :
    ∀ (fuel iDst : Nat) (acc out : List IndexMapping),
      List.Chain' (fun x y => x.map_end ≤ y.map_start) acc →
      ffLoop dst src minSize minOverlap bs fuel iDst acc = some out →
      List.Chain' (fun x y => x.map_end ≤ y.map_start) out := by
  intro fuel
  induction fuel with
  | zero => intro iDst acc out hc h; exact absurd h (by simp [ffLoop])
  | succ fuel ih =>
    intro iDst acc out hc h
    simp only [ffLoop] at h
    split at h
    · exact (Option.some.inj h) ▸ hc
    · split at h
      · split at h
        · exact absurd h (by simp)
        · split at h
          · split at h
            · rename_i hg
              exact ih _ _ _ (chain_append_last acc _ hc hg) h
            · exact absurd h (by simp)
          · exact ih _ _ _ hc h
      · exact ih _ _ _ hc h

/-- C7.  Every fragment list returned by `find_fragments` is ordered and
non-overlapping in destination space: each fragment's `map_start` is at least
the previous fragment's `map_end`, so the half-open destination ranges
`[map_start, map_end)` are pairwise disjoint and increasing. -/
theorem C7_fragment_monotonic (dst src : List Nat) (blockSize : Nat)
    (out : List IndexMapping) (h : findFragments dst src blockSize = some out) :
    List.Chain' (fun x y => x.map_end ≤ y.map_start) out := by
  simp only [findFragments] at h
  split at h
  · exact (Option.some.inj h) ▸ List.chain'_nil
  · split at h
    · exact absurd h (by simp)
    · exact ffLoop_chain dst src blockSize (max 2 (blockSize / 2)) (min blockSize src.length)
        _ 0 [] out List.chain'_nil h

/-- Witness for `C7_fragment_monotonic`: the published `find_fragments`
example (tests/test_util.py). -/
theorem C7_witness :
    List.Chain' (fun x y => x.map_end ≤ y.map_start)
      [(⟨31, -31, 12⟩ : IndexMapping), ⟨0, 27, 19⟩] :=
  C7_fragment_monotonic frDst frSrc 8 [⟨31, -31, 12⟩, ⟨0, 27, 19⟩] (by decide)

/-! ### Claim C8: find_overlap endpoint postcondition -/

/-- `diff[i] = 0` means the bytes agree. -/
theorem ovd_zero_iff (a b : List Nat) (i : Nat) :
    ovd a b i = 0 ↔ a.getD i 0 = b.getD i 0 := by
  unfold ovd
  split
  · exact iff_of_true rfl (by assumption)
  · exact iff_of_false (by simp) (by assumption)

/-- Membership in `matched`. -/
theorem mem_ovMatched (a b : List Nat) (i : Nat) :
    i ∈ ovMatched a b ↔ i < ovN a b ∧ ovd a b i = 0 := by
  simp [ovMatched, List.mem_filter, List.mem_range]

/-- Membership in `boundaries`. -/
theorem mem_ovBoundaries (a b : List Nat) (i : Nat) :
    i ∈ ovBoundaries a b ↔
      i < ovN a b ∧ ovd a b i = 1 ∧ (i = 0 ∨ ovd a b (i - 1) = 0) := by
  simp [ovBoundaries, List.mem_filter, List.mem_range]

/-- `matched` is strictly increasing (it is a filter of `range`). -/
theorem pairwise_ovMatched (a b : List Nat) : (ovMatched a b).Pairwise (· < ·) :=
  (List.pairwise_lt_range _).filter _

/-- The computed `stop` is either the default (`matched[-1] + 1`) or the start
of a too-long mismatch run at or after `start`. -/
theorem ovStop_cases (a b : List Nat) (mer start stop0 : Nat) :
    ovStop a b mer start stop0 = stop0 ∨
    (ovStop a b mer start stop0 ∈ ovBoundaries a b ∧
      start ≤ ovStop a b mer start stop0) := by
  unfold ovStop
  rcases hq : ((((List.range (ovBoundaries a b).length).filter
        (fun k => mer < ovSize a b k)).map
        (fun k => (ovBoundaries a b).getD k 0)).filter (fun x => start ≤ x)) with _ | ⟨x, xs⟩
  · left; rfl
  · right
    have hx : x ∈ ((((List.range (ovBoundaries a b).length).filter
        (fun k => mer < ovSize a b k)).map
        (fun k => (ovBoundaries a b).getD k 0)).filter (fun x => start ≤ x)) := by
      rw [hq]; simp
    rw [List.mem_filter] at hx
    obtain ⟨hx1, hx2⟩ := hx
    obtain ⟨k, hk, hkx⟩ := List.mem_map.1 hx1
    rw [List.mem_filter, List.mem_range] at hk
    have hkb : (ovBoundaries a b).getD k 0 ∈ ovBoundaries a b := by
      rw [List.getD_eq_getElem _ _ hk.1]
      exact List.getElem_mem hk.1
    have hhead : (x :: xs).headD stop0 = x := rfl
    rw [hhead]
    constructor
    · rw [← hkx]; exact hkb
    · exact of_decide_eq_true hx2

/-- C8.  If some position below `min(len(a), len(b))` matches, `find_overlap`
returns `(start, length)` with `length ≥ 1`, `a[start] == b[start]` and
`a[start+length-1] == b[start+length-1]`; if no position matches it returns
the none-result `(0, 0)`. -/
theorem C8_find_overlap (a b : List Nat) (mer : Nat) :
    ((∃ i, i < ovN a b ∧ a.getD i 0 = b.getD i 0) →
      1 ≤ (findOverlap a b mer).2 ∧
      a.getD (findOverlap a b mer).1 0 = b.getD (findOverlap a b mer).1 0 ∧
      a.getD ((findOverlap a b mer).1 + (findOverlap a b mer).2 - 1) 0 =
        b.getD ((findOverlap a b mer).1 + (findOverlap a b mer).2 - 1) 0) ∧
    ((∀ i, i < ovN a b → a.getD i 0 ≠ b.getD i 0) → findOverlap a b mer = (0, 0)) := by
  constructor
  · rintro ⟨i0, hi0, heq⟩
    have hi0m : i0 ∈ ovMatched a b :=
      (mem_ovMatched a b i0).2 ⟨hi0, (ovd_zero_iff a b i0).2 heq⟩
    rcases hm : ovMatched a b with _ | ⟨s, rest⟩
    · rw [hm] at hi0m; exact absurd hi0m (by simp)
    · have hpw : (s :: rest).Pairwise (· < ·) := hm ▸ pairwise_ovMatched a b
      have hs : s ∈ ovMatched a b := by rw [hm]; simp
      have hsP := (mem_ovMatched a b s).1 hs
      have hLmem : (s :: rest).getLast (by simp) ∈ ovMatched a b := by
        rw [hm]; exact List.getLast_mem _
      have hLP := (mem_ovMatched a b _).1 hLmem
      have hsL : s ≤ (s :: rest).getLast (by simp) := by
        rcases List.mem_cons.1 (hm ▸ hLmem) with h | h
        · omega
        · exact le_of_lt (List.rel_of_pairwise_cons hpw h)
      have hres : findOverlap a b mer =
          (s, ovStop a b mer s ((s :: rest).getLast (by simp) + 1) - s) := by
        simp only [findOverlap, hm]
      rw [hres]
      rcases ovStop_cases a b mer s ((s :: rest).getLast (by simp) + 1) with hst | ⟨hstB, hstGe⟩
      · rw [hst]
        refine ⟨by omega, (ovd_zero_iff a b s).1 hsP.2, ?_⟩
        have he : s + ((s :: rest).getLast (by simp) + 1 - s) - 1 =
            (s :: rest).getLast (by simp) := by omega
        rw [he]
        exact (ovd_zero_iff a b _).1 hLP.2
      · obtain ⟨hxn, hx1, hx0⟩ := (mem_ovBoundaries a b _).1 hstB
        have hxs : s < ovStop a b mer s ((s :: rest).getLast (by simp) + 1) := by
          rcases Nat.lt_or_ge s (ovStop a b mer s ((s :: rest).getLast (by simp) + 1)) with h | h
          · exact h
          · exfalso
            have : s = ovStop a b mer s ((s :: rest).getLast (by simp) + 1) := by omega
            rw [← this] at hx1
            have h0 := hsP.2
            omega
        have hx0' : ovd a b (ovStop a b mer s ((s :: rest).getLast (by simp) + 1) - 1) = 0 := by
          rcases hx0 with h | h
          · omega
          · exact h
        refine ⟨by omega, (ovd_zero_iff a b s).1 hsP.2, ?_⟩
        have he : s + (ovStop a b mer s ((s :: rest).getLast (by simp) + 1) - s) - 1 =
            ovStop a b mer s ((s :: rest).getLast (by simp) + 1) - 1 := by omega
        rw [he]
        exact (ovd_zero_iff a b _).1 hx0'
  · intro hall
    have hnil : ovMatched a b = [] := by
      unfold ovMatched
      rw [List.filter_eq_nil_iff]
      intro i hi
      rw [List.mem_range] at hi
      simp only [decide_eq_true_eq]
      rw [ovd_zero_iff]
      exact hall i hi
    simp [findOverlap, hnil]

/-- Witness for `C8_find_overlap`: the first published overlap example, with
matching position 3 (`a[3] = b[3] = 0x20`). -/
theorem C8_witness :
    1 ≤ (findOverlap fox19 ovB1 0).2 ∧
    fox19.getD (findOverlap fox19 ovB1 0).1 0 = ovB1.getD (findOverlap fox19 ovB1 0).1 0 ∧
    fox19.getD ((findOverlap fox19 ovB1 0).1 + (findOverlap fox19 ovB1 0).2 - 1) 0 =
      ovB1.getD ((findOverlap fox19 ovB1 0).1 + (findOverlap fox19 ovB1 0).2 - 1) 0 :=
  (C8_find_overlap fox19 ovB1 0).1 ⟨3, by decide, by decide⟩

/-! ### Claim C2: identity compactness -/

set_option maxRecDepth 1000000 in
set_option maxHeartbeats 1000000 in
/-- C2 counterexample.  With the *default* parameters (`block_size = 64`),
`encode(x, x)` for the spec's own 19-byte scenario-1 string produces a
33-byte delta whose instruction body is `INS 19` (byte 10 is `0x93`, not
`CPY|19 = 0x53`): no fragment of length `≥ block_size = 64` can exist, so the
whole destination is emitted as a literal.  Moreover even with a fitting
block size (here 8), a 63-byte identity delta is 15 bytes, not 14 (`CPY 63`
needs the two-byte count form since `limit = 63`). -/
theorem C2_counterexample :
    (encodeD16 fox19 0 fox19 none 64).map List.length = some 33 ∧
    (encodeD16 fox19 0 fox19 none 64).map (fun d => d.getD 10 0) = some 147 ∧
    (encodeD16 (List.range 63) 0 (List.range 63) none 8).map List.length = some 15 := by
  refine ⟨by decide, by decide, by decide⟩

/-- Number of agreeing positions of a list with itself. -/
theorem countEq_self (l : List Nat) : countEq l l = l.length := by
  induction l with
  | nil => rfl
  | cons x xs ih => simp [countEq, List.zipWith] at ih ⊢; omega

/-- The agreement count is bounded by the first list's length. -/
theorem countEq_le (xs : List Nat) : ∀ (ys : List Nat), countEq xs ys ≤ xs.length := by
  induction xs with
  | nil => intro ys; simp [countEq]
  | cons x xs ih =>
    intro ys
    cases ys with
    | nil => simp [countEq]
    | cons y ys =>
      have := ih ys
      simp only [countEq, List.zipWith, List.sum_cons] at this ⊢
      split <;> simp <;> omega

/-- `argmaxGo` returns the running best when no later element beats it. -/
theorem argmaxGo_best (l : List Nat) : ∀ (i bi bv : Nat), (∀ y ∈ l, y ≤ bv) →
    argmaxGo i bi bv l = (bi, bv) := by
  induction l with
  | nil => intro i bi bv _; rfl
  | cons x xs ih =>
    intro i bi bv h
    have hx : ¬bv < x := by have := h x (by simp); omega
    simp only [argmaxGo, if_neg hx]
    exact ih _ _ _ (fun y hy => h y (by simp [hy]))

/-- `np.argmax` returns index 0 when the head is maximal. -/
theorem argmaxFirst_head (v : Nat) (l : List Nat) (h : ∀ y ∈ l, y ≤ v) :
    argmaxFirst (v :: l) = (0, v) :=
  argmaxGo_best l 1 0 v h

/-- A sequence never differs from itself. -/
theorem ovd_self (x : List Nat) (i : Nat) : ovd x x i = 0 := by simp [ovd]

/-- `find_overlap` of a nonempty sequence with itself matches everywhere:
`(0, len)`. -/
theorem findOverlap_self (x : List Nat) (hx : x ≠ []) (mer : Nat) :
    findOverlap x x mer = (0, x.length) := by
  obtain ⟨k, hk⟩ : ∃ k, x.length = k + 1 := by
    cases x with
    | nil => exact absurd rfl hx
    | cons a l => exact ⟨l.length, rfl⟩
  have hN : ovN x x = k + 1 := by simp [ovN, hk]
  have hm : ovMatched x x = List.range (k + 1) := by
    unfold ovMatched
    rw [hN, List.filter_eq_self.2 (fun i _ => by simp [ovd_self])]
  have hb : ovBoundaries x x = [] := by
    unfold ovBoundaries
    rw [List.filter_eq_nil_iff.2 (fun i _ => by simp [ovd_self])]
  have hstop : ∀ s t, ovStop x x mer s t = t := by
    intro s t
    unfold ovStop
    rw [hb]
    rfl
  have hm2 : ovMatched x x = 0 :: (List.range k).map Nat.succ := by
    rw [hm, List.range_succ_eq_map]
  have hlast : (0 :: (List.range k).map Nat.succ).getLast (by simp) = k := by
    have h1 : (0 :: (List.range k).map Nat.succ) = List.range (k + 1) := by
      rw [List.range_succ_eq_map]
    have h2 : (0 :: (List.range k).map Nat.succ).getLast (by simp) =
        (List.range (k + 1)).getLast (by simp) := by
      congr 1
    rw [h2]
    have h3 : List.range (k + 1) = List.range k ++ [k] := List.range_succ k
    have h4 : (List.range (k + 1)).getLast (by simp) =
        (List.range k ++ [k]).getLast (by simp) := by congr 1
    rw [h4, List.getLast_append]
    simp
  simp only [findOverlap, hm2, hstop, hlast, hk]
  simp

/-- For the identity comparison the first (index-0) row of the similarity
scores is maximal, so `np.argmax` selects source offset 0 with a full
score. -/
theorem simScores_self (x : List Nat) (b : Nat) (hbl : b ≤ x.length) :
    argmaxFirst (simScores x (x.take b) b) = (0, b) := by
  unfold simScores
  rw [List.range_succ_eq_map, List.map_cons]
  have hhead : countEq (x.take b) ((x.drop 0).take b) = b := by
    rw [List.drop_zero, countEq_self, List.length_take]
    omega
  rw [hhead]
  apply argmaxFirst_head
  intro y hy
  simp only [List.mem_map] at hy
  obtain ⟨j, _, rfl⟩ := hy
  refine le_trans (countEq_le _ _) ?_
  rw [List.length_take]
  omega

/-- The inner lookback loop of `find_fragments` terminates immediately on the
identity comparison at lookback 0. -/
theorem ffInner_self (x : List Nat) (hx : x ≠ []) (maxErr minSize fuel : Nat)
    (hf : 1 ≤ fuel) :
    ffInner x x 0 0 maxErr minSize fuel 0 = some (0, x.length, 0) := by
  obtain ⟨f, rfl⟩ : ∃ f, fuel = f + 1 := ⟨fuel - 1, by omega⟩
  rw [ffInner]
  norm_num [List.drop_zero, findOverlap_self x hx]

/-- `find_fragments(x, x, b)` with `2 ≤ b ≤ len(x)` returns the single
full-length identity fragment. -/
theorem findFragments_self (x : List Nat) (b : Nat) (hb : 2 ≤ b) (hbl : b ≤ x.length) :
    findFragments x x b = some [⟨0, 0, (x.length : Int)⟩] := by
  have hxne : x ≠ [] := by
    intro h; rw [h] at hbl; simp at hbl; omega
  have hmin : min b x.length = b := min_eq_left hbl
  unfold findFragments
  rw [if_neg (by simp [hxne]), hmin, if_neg (by omega)]
  obtain ⟨f1, hf1⟩ : ∃ f, (x.length + 2) * (x.length + 2) = f + 1 :=
    ⟨(x.length + 2) * (x.length + 2) - 1, by
      have : 0 < (x.length + 2) * (x.length + 2) := Nat.mul_pos (by omega) (by omega)
      omega⟩
  have hf1ge : 1 ≤ f1 := by
    have : 4 * 4 ≤ (x.length + 2) * (x.length + 2) :=
      Nat.mul_le_mul (by omega) (by omega)
    omega
  rw [hf1]
  simp only [ffLoop, List.drop_zero]
  rw [if_neg (by omega)]
  simp only [simScores_self x b hbl]
  rw [if_pos (max_le hb (Nat.div_le_self b 2))]
  simp only [List.getLast?_nil]
  norm_num
  rw [ffInner_self x hxne (b / 4) b 2 (by omega)]
  norm_num [IndexMapping.map_end, hbl]
  obtain ⟨f2, hf2⟩ : ∃ f, f1 = f + 1 := ⟨f1 - 1, by omega⟩
  rw [hf2]
  simp only [ffLoop]
  rw [if_pos (le_refl _)]

/-- The difference map of a sequence against itself is all zeros. -/
theorem zipWith_diff_self (l : List Nat) :
    List.zipWith (fun a c => if a = c then (0 : Nat) else 1) l l =
      List.replicate l.length 0 := by
  induction l with
  | nil => rfl
  | cons a l ih => simp [List.replicate_succ, ih]

/-- The relocation-classification scan leaves a difference map without any
mismatch marker (`1`) untouched. -/
theorem relocScanF_no_one (tbl : List IndexMapping) (dstF srcF : List Nat)
    (fragLen : Int) : ∀ (fuel i : Nat) (diff : List Nat), (∀ d ∈ diff, d ≠ 1) →
    relocScanF tbl dstF srcF fragLen fuel i diff = diff := by
  intro fuel
  induction fuel with
  | zero => intro i diff _; rfl
  | succ fuel ih =>
    intro i diff h
    by_cases hlen : diff.length ≤ i
    · simp only [relocScanF]
      rw [if_pos hlen]
    · have hd : diff.getD i 0 ≠ 1 := by
        refine h _ ?_
        rw [List.getD_eq_getElem _ _ (by omega)]
        exact List.getElem_mem _
      simp only [relocScanF]
      rw [if_neg hlen, if_pos hd]
      exact ih (i + 1) diff h

/-- Wrapper version of `relocScanF_no_one`. -/
theorem relocScan_no_one (tbl : List IndexMapping) (dstF srcF : List Nat)
    (fragLen : Int) (diff : List Nat) (h : ∀ d ∈ diff, d ≠ 1) :
    relocScan tbl dstF srcF fragLen diff = diff :=
  relocScanF_no_one tbl dstF srcF fragLen (diff.length + 1) 0 diff h

/-- Run-length coding of a constant sequence. -/
theorem rle_replicate (v : Nat) : ∀ (n : Nat), 1 ≤ n →
    rle (List.replicate n v) = [(v, n)] := by
  intro n
  induction n with
  | zero => omega
  | succ n ih =>
    intro _
    cases n with
    | zero => rfl
    | succ m =>
      rw [List.replicate_succ, rle, ih (by omega)]
      simp

/-- The Fletcher-16 fold keeps both sums below 255 for byte input. -/
theorem fletcher_fold_bound (l : List Nat) : ∀ (p : Nat × Nat), (∀ c ∈ l, c < 256) →
    p.1 ≤ 254 → p.2 ≤ 254 →
    (l.foldl (fun (p : Nat × Nat) byte =>
        let s1 := p.1 + byte
        let s1 := if s1 ≥ 255 then s1 - 255 else s1
        let s2 := p.2 + s1
        let s2 := if s2 ≥ 255 then s2 - 255 else s2
        (s1, s2)) p).1 ≤ 254 ∧
    (l.foldl (fun (p : Nat × Nat) byte =>
        let s1 := p.1 + byte
        let s1 := if s1 ≥ 255 then s1 - 255 else s1
        let s2 := p.2 + s1
        let s2 := if s2 ≥ 255 then s2 - 255 else s2
        (s1, s2)) p).2 ≤ 254 := by
  induction l with
  | nil => intro p _ h1 h2; exact ⟨h1, h2⟩
  | cons c l ih =>
    intro p hc h1 h2
    rw [List.foldl_cons]
    refine ih _ (fun d hd => hc d (by simp [hd])) ?_ ?_
    · have := hc c (by simp)
      simp only []
      split <;> omega
    · have := hc c (by simp)
      simp only []
      split <;> split <;> omega

/-- For byte input the Fletcher-16 checksum fits in 16 bits. -/
theorem fletcher16_lt (x : List Nat) (h : ∀ c ∈ x, c < 256) : fletcher16 x < 65536 := by
  unfold fletcher16
  obtain ⟨h1, h2⟩ := fletcher_fold_bound x (0, 0) h (by omega) (by omega)
  rw [Nat.lor_comm, lor_shift8 _ _ (by omega)]
  omega

/-- Emitting a single all-match run-length group records the run as the new
pending copy and advances both cursors, producing no bytes. -/
theorem emitGroups_single_cpy (dst : List Nat) (n iSrc iDst : Nat) :
    emitGroups dst [(0, n)] 0 iSrc iDst = some ([], n, iSrc + n, iDst + n) := by
  simp [emitGroups, encodeOp, Int.toNat_natCast]

/-- The sentinel fragment terminates `encLoop` once the destination cursor has
reached the end of the destination, passing the state straight through. -/
theorem encLoop_sentinel (src : List Nat) (tbl : List IndexMapping)
    (dst : List Nat) (p s : Nat) :
    encLoop src tbl dst [⟨0, (dst.length : Int), 0⟩] p s dst.length =
      some ([], p, s, dst.length) := by
  simp [encLoop, IndexMapping.map_start, IndexMapping.map_end, IndexMapping.iend,
    Int.toNat_natCast]

/-- A full pass of `encLoop` over the single identity fragment plus the
sentinel: the whole destination becomes one pending copy of its length and no
bytes are emitted. -/
theorem encLoop_identity (x : List Nat) (tbl : List IndexMapping)
    (hL : 1 ≤ x.length) :
    encLoop x tbl x [⟨0, 0, (x.length : Int)⟩, ⟨0, (x.length : Int), 0⟩] 0 0 0 =
      some ([], x.length, x.length, x.length) := by
  have hL0 : ¬((x.length : Int) = 0) := by
    simp only [Int.natCast_eq_zero]
    omega
  have hscan : relocScan tbl x x (x.length : Int) (List.replicate x.length 0) =
      List.replicate x.length 0 :=
    relocScan_no_one _ _ _ _ _ (fun d hd => by
      rw [List.eq_of_mem_replicate hd]
      decide)
  have hemit : emitGroups x [(0, x.length)] 0 0 0 =
      some ([], x.length, x.length, x.length) := by
    simpa using emitGroups_single_cpy x x.length 0 0
  simp [encLoop, IndexMapping.map_start, IndexMapping.map_end, IndexMapping.iend,
    hL0, zipWith_diff_self, hscan, rle_replicate 0 x.length hL, hemit,
    Int.toNat_natCast]

/-- Explicit form of the encoded CPY instruction, with the one-byte shape for
counts below the packed limit. -/
theorem encInner_cpy_cases (L : Nat) (h1 : 1 ≤ L) (h2 : L ≤ 65535) :
    ∃ cpy, encInner .CPY L [] = some cpy ∧ (L ≤ 62 → cpy = [64 + L]) := by
  by_cases hs : L < 63
  · have h64 : 64 ||| L = 64 + L := by
      have h := Nat.mul_add_lt_is_or (show L < 2 ^ 6 by omega) 1
      norm_num at h
      exact h.symm
    refine ⟨[64 + L], ?_, fun _ => rfl⟩
    rw [encInner_small .CPY L [] (by decide) h1
      (by simp only [opmaskOf]; omega) (by simp [dataOk, opdataOf])]
    simp [opcodeOf, h64]
  · by_cases hm : L ≤ 318
    · refine ⟨[127, L - 63], ?_, fun hle => by omega⟩
      rw [encInner_mid .CPY L [] (by decide)
        (by simp only [opmaskOf]; omega) (by simp only [opmaskOf]; omega)
        (by simp [dataOk, opdataOf])]
      have h127 : (64 : Nat) ||| 63 = 127 := by decide
      simp [opcodeOf, opmaskOf, h127]
    · refine ⟨[64, L % 256, L / 256], ?_, fun hle => by omega⟩
      rw [encInner_u16 .CPY L [] (by decide) (by decide)
        (by simp only [opmaskOf]; omega) h2 (by simp [dataOk, opdataOf])]
      simp [opcodeOf]

/-- `Delta16._enc` on identical source and destination: the body is one
flushed CPY of the whole length followed by the END byte. -/
theorem encBody_identity (x : List Nat) (srcAddr dstAddr b : Nat)
    (hb : 2 ≤ b) (hbl : b ≤ x.length) (hx : x.length ≤ 65535)
    (cpy : List Nat) (hcpy : encInner .CPY x.length [] = some cpy) :
    encBody x srcAddr x dstAddr b = some (cpy ++ [0]) := by
  have hend : encodeOp x.length .END 0 [] = some (0, cpy ++ [0]) := by
    rw [encodeOp, if_pos (by omega : x.length ≠ 0), if_neg (by simp),
      encodeOpInner_natCast .CPY x.length [] (by omega) hx, hcpy]
    simp [encodeOpInner, encInner, encInnerF, opdataOf, opmaskOf, opcodeOf]
  unfold encBody
  rw [findFragments_self x b hb hbl]
  simp only [Option.pure_def, Option.bind_eq_bind, Option.some_bind,
    List.cons_append, List.nil_append]
  rw [encLoop_identity x _ (by omega)]
  simp [hend]

/-- C2 (amended).  Identity compactness holds once the block size fits the
input: for every byte blob `x` and block size `b` with `2 ≤ b ≤ len(x) ≤ 65535`,
`encode(x, x, chunk_size=b)` is exactly the 10-byte header, one CPY instruction
with count `len(x)`, the END byte, and the 2-byte destination checksum; for
`len(x) ≤ 62` the CPY is the single byte `0x40 | len(x)` and the total delta
length is 14.  (With the default `chunk_size=64` and with `len(x) = 63` the
original claim fails, see the counterexample.) -/
theorem C2_amended (x : List Nat) (b : Nat) (hb : 2 ≤ b) (hbl : b ≤ x.length)
    (hx : x.length ≤ 65535) (hbytes : ∀ c ∈ x, c < 256) :
    ∃ cpy chk,
      encInner .CPY x.length [] = some cpy ∧
      pack16 (fletcher16 x : Int) = some chk ∧ chk.length = 2 ∧
      encodeD16 x 0 x none b =
        some ([22, 13, 0, 0, x.length % 256, x.length / 256] ++ chk ++ [0, 0] ++
          cpy ++ [0] ++ chk) ∧
      (x.length ≤ 62 → cpy = [64 + x.length] ∧
        (encodeD16 x 0 x none b).map List.length = some 14) := by
  obtain ⟨cpy, hcpy, hsmall⟩ := encInner_cpy_cases x.length (by omega) hx
  have hfl : fletcher16 x < 65536 := fletcher16_lt x hbytes
  have hchk : pack16 (fletcher16 x : Int) =
      some [fletcher16 x % 256, fletcher16 x / 256] := by
    rw [pack16, if_pos ⟨by positivity, by exact_mod_cast hfl⟩]
    simp
  have h3 : pack16 (x.length : Int) = some [x.length % 256, x.length / 256] := by
    rw [pack16, if_pos ⟨by positivity, by exact_mod_cast (by omega : x.length < 65536)⟩]
    simp
  have h1 : pack16 (3350 : Int) = some [22, 13] := rfl
  have h2 : pack16 (0 : Int) = some [0, 0] := rfl
  have hmain : encodeD16 x 0 x none b =
      some ([22, 13, 0, 0, x.length % 256, x.length / 256] ++
        [fletcher16 x % 256, fletcher16 x / 256] ++ [0, 0] ++ cpy ++ [0] ++
        [fletcher16 x % 256, fletcher16 x / 256]) := by
    unfold encodeD16
    simp only [Option.getD_none]
    rw [encBody_identity x 0 0 b hb hbl hx cpy hcpy]
    simp [h1, h2, h3, hchk]
  refine ⟨cpy, [fletcher16 x % 256, fletcher16 x / 256], hcpy, hchk, rfl, hmain,
    fun h62 => ⟨hsmall h62, ?_⟩⟩
  rw [hmain, hsmall h62]
  simp

/-- Witness for C2 (amended) at the spec's scenario-1 string with a fitting
block size of 8. -/
theorem C2_witness :
    ∃ cpy chk,
      encInner .CPY fox19.length [] = some cpy ∧
      pack16 (fletcher16 fox19 : Int) = some chk ∧ chk.length = 2 ∧
      encodeD16 fox19 0 fox19 none 8 =
        some ([22, 13, 0, 0, fox19.length % 256, fox19.length / 256] ++ chk ++
          [0, 0] ++ cpy ++ [0] ++ chk) ∧
      (fox19.length ≤ 62 → cpy = [64 + fox19.length] ∧
        (encodeD16 fox19 0 fox19 none 8).map List.length = some 14) :=
  C2_amended fox19 8 (by decide) (by decide) (by decide) (by decide)


/-! ### Claim C1: round-trip, and the CPM chunking bug -/

/-- 274-byte source for the round-trip failure: bytes `i % 256` with byte 272
zeroed (so the pair at 270 reads as the address `0x0f0e = 3854`). -/
def c1src : List Nat := [0, 1, 2, 3, 4, 5, 6, 7, 8, 9, 10, 11, 12, 13, 14, 15, 16, 17, 18, 19, 20, 21, 22, 23, 24, 25, 26, 27, 28, 29, 30, 31, 32, 33, 34, 35, 36, 37, 38, 39, 40, 41, 42, 43, 44, 45, 46, 47, 48, 49, 50, 51, 52, 53, 54, 55, 56, 57, 58, 59, 60, 61, 62, 63, 64, 65, 66, 67, 68, 69, 70, 71, 72, 73, 74, 75, 76, 77, 78, 79, 80, 81, 82, 83, 84, 85, 86, 87, 88, 89, 90, 91, 92, 93, 94, 95, 96, 97, 98, 99, 100, 101, 102, 103, 104, 105, 106, 107, 108, 109, 110, 111, 112, 113, 114, 115, 116, 117, 118, 119, 120, 121, 122, 123, 124, 125, 126, 127, 128, 129, 130, 131, 132, 133, 134, 135, 136, 137, 138, 139, 140, 141, 142, 143, 144, 145, 146, 147, 148, 149, 150, 151, 152, 153, 154, 155, 156, 157, 158, 159, 160, 161, 162, 163, 164, 165, 166, 167, 168, 169, 170, 171, 172, 173, 174, 175, 176, 177, 178, 179, 180, 181, 182, 183, 184, 185, 186, 187, 188, 189, 190, 191, 192, 193, 194, 195, 196, 197, 198, 199, 200, 201, 202, 203, 204, 205, 206, 207, 208, 209, 210, 211, 212, 213, 214, 215, 216, 217, 218, 219, 220, 221, 222, 223, 224, 225, 226, 227, 228, 229, 230, 231, 232, 233, 234, 235, 236, 237, 238, 239, 240, 241, 242, 243, 244, 245, 246, 247, 248, 249, 250, 251, 252, 253, 254, 255, 0, 1, 2, 3, 4, 5, 6, 7, 8, 9, 10, 11, 12, 13, 14, 15, 0, 17]

/-- Destination: identical to `c1src` except byte 271 (`15 = 0x0f`) becomes
`17`, which is exactly `relocate(0x0f) = 0x0f + (dst_addr - src_addr)` for
`dst_addr = 2` - a single relocated MOV pair after 271 copied bytes. -/
def c1dst : List Nat := [0, 1, 2, 3, 4, 5, 6, 7, 8, 9, 10, 11, 12, 13, 14, 15, 16, 17, 18, 19, 20, 21, 22, 23, 24, 25, 26, 27, 28, 29, 30, 31, 32, 33, 34, 35, 36, 37, 38, 39, 40, 41, 42, 43, 44, 45, 46, 47, 48, 49, 50, 51, 52, 53, 54, 55, 56, 57, 58, 59, 60, 61, 62, 63, 64, 65, 66, 67, 68, 69, 70, 71, 72, 73, 74, 75, 76, 77, 78, 79, 80, 81, 82, 83, 84, 85, 86, 87, 88, 89, 90, 91, 92, 93, 94, 95, 96, 97, 98, 99, 100, 101, 102, 103, 104, 105, 106, 107, 108, 109, 110, 111, 112, 113, 114, 115, 116, 117, 118, 119, 120, 121, 122, 123, 124, 125, 126, 127, 128, 129, 130, 131, 132, 133, 134, 135, 136, 137, 138, 139, 140, 141, 142, 143, 144, 145, 146, 147, 148, 149, 150, 151, 152, 153, 154, 155, 156, 157, 158, 159, 160, 161, 162, 163, 164, 165, 166, 167, 168, 169, 170, 171, 172, 173, 174, 175, 176, 177, 178, 179, 180, 181, 182, 183, 184, 185, 186, 187, 188, 189, 190, 191, 192, 193, 194, 195, 196, 197, 198, 199, 200, 201, 202, 203, 204, 205, 206, 207, 208, 209, 210, 211, 212, 213, 214, 215, 216, 217, 218, 219, 220, 221, 222, 223, 224, 225, 226, 227, 228, 229, 230, 231, 232, 233, 234, 235, 236, 237, 238, 239, 240, 241, 242, 243, 244, 245, 246, 247, 248, 249, 250, 251, 252, 253, 254, 255, 0, 1, 2, 3, 4, 5, 6, 7, 8, 9, 10, 11, 12, 13, 14, 17, 0, 17]

/-- The delta the encoder actually produces for `(c1src, c1dst, dst_addr=2)`:
header, then body `CPM 270; CPM 1; CPY 1; END` (bytes `15,255,1,65,0`), then
the destination checksum. -/
def c1delta : List Nat := [22, 13, 0, 0, 18, 1, 137, 2, 2, 0, 15, 255, 1, 65, 0, 139, 8]

set_option maxRecDepth 1000000 in
set_option maxHeartbeats 4000000 in
/-- C1 (code bug).  The round-trip fails: for `src = c1src`, `dst = c1dst`
(each 274 bytes, well within the stated constraints) and `dst_addr = 2`,
`encode` produces `c1delta`, whose body merges the pending `CPY 271` with a
one-pair `MOV` into `CPM 271` and then chunks it as `CPM 270; CPM 1` because
`271 > 255 + opmask = 270`; but `CPM n` copies `n` bytes *plus* a relocated
pair, so the two chunks consume `270+2+1+2 = 275` source bytes instead of
`271+2`, and `decode` reads the misaligned pair `0x0f0e`, whose relocation
fails (`pack16(None)`): decoding the encoder output crashes instead of
returning `c1dst`. -/
theorem C1_code_bug :
    encodeD16 c1src 0 c1dst (some 2) 64 = some c1delta ∧
    decodeD16 c1src 0 c1delta = none := by
  constructor
  · decide
  · decide

end Delta16
